import Mathlib

/-!
Verification of the pbrt scene-description parser (`src/core/parser.rs`).

The Rust code is a nom-3 style recursive-descent parser over a byte buffer.
We shallow-embed it over `List Char` (all grammar-relevant bytes are ASCII,
so bytes and characters correspond one-to-one).  The nom `IResult` type
(`Done`/`Error`/`Incomplete`) is embedded as `NR`, extended with a
`panicked` outcome that models a Rust `panic!` aborting the process
(`param_set_item_values` panics on an unknown type tag).

Nom-3 semantics that the embedding follows, pinned down by the repository's
own test-suite (`test_number`, `test_sampler`, ... all assert `Done` for
literals that run to the end of input):
* `tag!(t)` returns `Done` when `t` is a prefix of the input, `Incomplete`
  when the input is a proper prefix of `t`, and `Error` otherwise;
* the character-class recognizers (`digit`, `alphanumeric`, `space`) return
  `Incomplete` on empty input, `Error` when the first character does not
  match, and otherwise consume the maximal matching prefix (returning
  `Done` also when that prefix runs to the end of the input);
* `opt!` and `alt!` propagate `Incomplete` without trying further
  alternatives; `complete!` converts `Incomplete` into `Error`;
* `many0!`/`many1!` stop on `Error`, propagate `Incomplete`, stop when the
  input is empty or an iteration consumes nothing;
* `ws!(..)` eats optional whitespace (space, tab, CR, LF) before every
  inner token and after the whole parse; the expansion of the `ws!` macro
  is inlined at exactly the places the `sep!` distribution puts it.
* `many0!`/`many1!` loops are realized with an explicit fuel argument set
  to `input.length + 1`; since every iteration that continues the loop
  consumes at least one character, this fuel is never exhausted, so the
  fueled loop is exactly nom's loop.  The same holds for the fuel used for
  the `AttributeBegin`/`AttributeEnd` recursion and for comment stripping.

Numeric values: the Rust code parses into `Float` (an IEEE float) and
`i64`.  We model `Float` as an exact rational: the parsed value is the
exact decimal denoted by the recognized literal.  Which characters are
consumed and which literals are accepted or rejected is modelled exactly;
IEEE rounding of the denoted decimal is not modelled.  `i64` is modelled
as `Int` with the two's-complement range check performed by Rust's
`str::parse::<i64>`.

`ParamSet` (from `core::paramset`, not under `src/`) is modelled from the
spec: an ordered collection of `ParamSetItem` preserving insertion order;
the `Vec<ParamSetItem> -> ParamSet` conversion is the identity on the
ordered sequence.
-/

namespace Pbrt

/-- Input buffers: ASCII byte buffers, one `Char` per byte. -/
abbrev Input := List Char

/-- `core::pbrt::Float`, modelled as an exact rational (see header). -/
abbrev PFloat := Rat

/-- Embedding of nom-3 `IResult`, plus a `panicked` outcome modelling a Rust
`panic!` (process abort) carrying the offending parameter type tag. -/
inductive NR (α : Type) where
  | done (rest : Input) (val : α)
  | error
  | incomplete
  | panicked (tag : Input)
deriving Repr

/-- Convert a string literal to an input buffer. -/
def chars (s : String) : Input := s.data

/-- Sequencing of parser results (the `>>` chaining of `do_parse!`). -/
def nbind {α β : Type} : NR α → (Input → α → NR β) → NR β
  | .done i v, f => f i v
  | .error, _ => .error
  | .incomplete, _ => .incomplete
  | .panicked t, _ => .panicked t

/-- Map over the value of a parser result. -/
def nmap {α β : Type} (f : α → β) : NR α → NR β
  | .done i v => .done i (f v)
  | .error => .error
  | .incomplete => .incomplete
  | .panicked t => .panicked t

/-- nom `tag!`. -/
def tagP (t : Input) (i : Input) : NR Input :=
  if t.isPrefixOf i then .done (i.drop t.length) t
  else if i.isPrefixOf t then .incomplete
  else .error

/-- nom `opt!`: `Error` becomes `Done` with `none`; `Incomplete` propagates. -/
def optP {α : Type} (p : Input → NR α) (i : Input) : NR (Option α) :=
  match p i with
  | .done r v => .done r (some v)
  | .error => .done i none
  | .incomplete => .incomplete
  | .panicked t => .panicked t

/-- nom `complete!`: converts `Incomplete` into `Error`. -/
def completeP {α : Type} (p : Input → NR α) (i : Input) : NR α :=
  match p i with
  | .incomplete => .error
  | r => r

/-- nom `alt!`: tries alternatives in order, moving on only after `Error`. -/
def altP {α : Type} : List (Input → NR α) → Input → NR α
  | [], _ => .error
  | p :: ps, i =>
    match p i with
    | .error => altP ps i
    | r => r

/-- ASCII digit predicate (nom `is_digit`). -/
def isDig (c : Char) : Bool := '0' ≤ c && c ≤ '9'

/-- ASCII alphanumeric predicate (nom `is_alphanumeric`). -/
def isAlphaNum (c : Char) : Bool :=
  isDig c || ('a' ≤ c && c ≤ 'z') || ('A' ≤ c && c ≤ 'Z')

/-- Characters accepted by nom `space` (space and tab). -/
def isSpaceTab (c : Char) : Bool := c = ' ' || c = '\t'

/-- Whitespace eaten by the `ws!` macro (space, tab, CR, LF). -/
def isWs (c : Char) : Bool := c = ' ' || c = '\t' || c = '\r' || c = '\n'

/-- The separator eater of `ws!`: drop leading whitespace (never fails). -/
def sp (i : Input) : Input := i.dropWhile isWs

/-- Character-class recognizer scheme shared by nom `digit`, `alphanumeric`
and `space`: `Incomplete` on empty input, `Error` when the first character
does not match, otherwise the maximal matching prefix. -/
def charClass1 (f : Char → Bool) (i : Input) : NR Input :=
  if i.isEmpty then .incomplete
  else
    let ds := i.takeWhile f
    if ds.isEmpty then .error else .done (i.drop ds.length) ds

/-- nom `digit`. -/
def digit (i : Input) : NR Input := charClass1 isDig i

/-- nom `alphanumeric`. -/
def alphanumeric (i : Input) : NR Input := charClass1 isAlphaNum i

/-- nom `space`. -/
def space (i : Input) : NR Input := charClass1 isSpaceTab i

/-- Eat trailing whitespace after a successful `ws!`-wrapped parse. -/
def wsTrail {α : Type} : NR α → NR α
  | .done i v => .done (sp i) v
  | .error => .error
  | .incomplete => .incomplete
  | .panicked t => .panicked t

/-- The loop of nom `many0!`/`many1!`, with explicit fuel (see header):
stop on empty input, stop on `Error`, stop when nothing was consumed,
propagate `Incomplete` and `panicked`. -/
def manyLoop {α : Type} (p : Input → NR α) : Nat → Input → List α → NR (List α)
  | 0, _, _ => .incomplete
  | fuel + 1, i, acc =>
    if i = [] then .done i acc.reverse
    else
      match p i with
      | .error => .done i acc.reverse
      | .incomplete => .incomplete
      | .panicked t => .panicked t
      | .done r v =>
        if r.length = i.length then .done i acc.reverse
        else manyLoop p fuel r (v :: acc)

/-- nom `many0!`. -/
def many0P {α : Type} (p : Input → NR α) (i : Input) : NR (List α) :=
  manyLoop p (i.length + 1) i []

/-- nom `many1!`: the first application must succeed, then loop as `many0!`. -/
def many1P {α : Type} (p : Input → NR α) (i : Input) : NR (List α) :=
  match p i with
  | .done r v => manyLoop p (r.length + 1) r [v]
  | .error => .error
  | .incomplete => .incomplete
  | .panicked t => .panicked t

/-- Value of a nonempty digit string. -/
def digitsVal (ds : Input) : Nat :=
  ds.foldl (fun a c => 10 * a + (c.toNat - '0'.toNat)) 0

/-- Split an optional leading `+`/`-` sign off a literal, as Rust's
numeric `from_str` does: `(negative?, rest)`. -/
def splitSign (s : Input) : Bool × Input :=
  match s with
  | [] => (false, s)
  | c :: r => if c = '+' then (false, r) else if c = '-' then (true, r) else (false, s)

/-- The exponent suffix of Rust's float `from_str`: `e`/`E` already
consumed; optional sign, then one or more digits and nothing else.
Returns the sign and magnitude of the decimal exponent. -/
def parseExpSuffix (r : Input) : Option (Bool × Nat) :=
  match r with
  | [] => some (false, 0)
  | e :: r4 =>
    if e = 'e' ∨ e = 'E' then
      let s := splitSign r4
      let ds := s.2.takeWhile isDig
      if ds = [] ∨ s.2.drop ds.length ≠ [] then none
      else some (s.1, digitsVal ds)
    else none

/-- The exact rational denoted by a decimal literal with sign `neg`,
integer digits `ip`, fraction digits `fp` and decimal exponent
`(expNeg, k)` (a single normalized fraction, no `Rat` arithmetic). -/
def decToRat (neg : Bool) (ip fp : Input) (expNeg : Bool) (k : Nat) : PFloat :=
  let n : Nat := digitsVal ip * 10 ^ fp.length + digitsVal fp
  let num : Int := if neg then -(n : Int) else (n : Int)
  if expNeg then mkRat num (10 ^ fp.length * 10 ^ k)
  else mkRat (num * (10 : Int) ^ k) (10 ^ fp.length)

/-- Model of `str::parse::<Float>` (`parse_to!(Float)`) on a recognized
literal, producing the exact decimal it denotes. -/
def parse_to_float (s : Input) : Option PFloat :=
  let signSplit := splitSign s
  let neg := signSplit.1
  let r := signSplit.2
  let ip := r.takeWhile isDig
  let r1 := r.drop ip.length
  match r1 with
  | '.' :: r2 =>
    let fp := r2.takeWhile isDig
    if ip = [] ∧ fp = [] then none
    else (parseExpSuffix (r2.drop fp.length)).map fun ek => decToRat neg ip fp ek.1 ek.2
  | _ =>
    if ip = [] then none
    else (parseExpSuffix r1).map fun ek => decToRat neg ip [] ek.1 ek.2

/-- Model of `str::parse::<i64>` (`parse_to!(i64)`): optional sign, one or
more digits, two's-complement 64-bit range check. -/
def parse_to_i64 (s : Input) : Option Int :=
  let signSplit := splitSign s
  let neg := signSplit.1
  let r := signSplit.2
  if r = [] ∨ ¬ r.all isDig then none
  else
    let n := digitsVal r
    if neg then (if n ≤ 2 ^ 63 then some (-(n : Int)) else none)
    else (if n < 2 ^ 63 then some (n : Int) else none)

/-- The `flat_map!(recognize!(..), parse_to!(..))` pattern: `r` is the result
of the inner recognizer run on `i`; on success, convert the consumed prefix. -/
def parseToP {α : Type} (r : NR Unit) (i : Input) (conv : Input → Option α) : NR α :=
  match r with
  | .done rest _ =>
    match conv (i.take (i.length - rest.length)) with
    | some v => .done rest v
    | none => .error
  | .error => .error
  | .incomplete => .incomplete
  | .panicked t => .panicked t

/-- Forget the value of a parser result (for `recognize!` plumbing). -/
def toUnit {α : Type} : NR α → NR Unit
  | .done i _ => .done i ()
  | .error => .error
  | .incomplete => .incomplete
  | .panicked t => .panicked t

/-- `opt!(alt!(tag!("+") | tag!("-")))`, the optional sign of `number` and
`integer`. -/
def signOpt (i : Input) : NR (Option Input) :=
  optP (altP [tagP ['+'], tagP ['-']]) i

/-- The mantissa alternation of `number`:
`alt!(complete!(delimited!(opt!(digit), tag!("."), digit))
     | complete!(preceded!(digit, tag!("."))) | digit)`. -/
def mantissa (i : Input) : NR Unit :=
  altP [
    completeP (fun j =>
      nbind (optP digit j) fun j _ =>
      nbind (tagP ['.'] j) fun j _ =>
      toUnit (digit j)),
    completeP (fun j =>
      nbind (digit j) fun j _ =>
      toUnit (tagP ['.'] j)),
    fun j => toUnit (digit j)] i

/-- The optional exponent of `number`:
`opt!(complete!(tuple!(alt!(tag!("e") | tag!("E")), opt!(sign), digit)))`. -/
def expOpt (i : Input) : NR (Option Unit) :=
  optP (completeP (fun j =>
    nbind (altP [tagP ['e'], tagP ['E']] j) fun j _ =>
    nbind (signOpt j) fun j _ =>
    toUnit (digit j))) i

/-- `fn number`: recognize the permissive numeric literal, then
`parse_to!(Float)`. -/
def number (i : Input) : NR PFloat :=
  let r : NR Unit :=
    nbind (signOpt i) fun i1 _ =>
    nbind (mantissa i1) fun i2 _ =>
    nbind (expOpt i2) fun i3 _ => .done i3 ()
  parseToP r i parse_to_float

/-- `fn integer`: `recognize!(tuple!(opt!(sign), complete!(digit)))`, then
`parse_to!(i64)`. -/
def integer (i : Input) : NR Int :=
  let r : NR Unit :=
    nbind (signOpt i) fun i1 _ =>
    toUnit (completeP digit i1)
  parseToP r i parse_to_i64

/-- `fn bool`: `recognize!(alt!(tag!("true") | tag!("false")))`, then
`parse_to!(bool)`. -/
def bool (i : Input) : NR Bool :=
  match altP [tagP (chars "true"), tagP (chars "false")] i with
  | .done r t =>
    if t = chars "true" then .done r true
    else if t = chars "false" then .done r false
    else .error
  | .error => .error
  | .incomplete => .incomplete
  | .panicked t => .panicked t

/-- Suffix of the input after the first newline, if any (the extent of a
`#.*\n` regex match starting at a `#`). -/
def splitAtNl : Input → Option Input
  | [] => none
  | c :: r => if c = '\n' then some r else splitAtNl r

/-- The fueled scan of `strip_comment` (see header: fuel is never exhausted
for the fuel chosen by `strip_comment`).  Each leftmost regex match
`#.*\n` (a `#`, the rest of its line, and the terminating newline) is
replaced by a single newline; a trailing `#` comment with no terminating
newline matches nothing and is passed through unchanged, as is everything
outside matches. -/
def stripGo : Nat → Input → Input
  | 0, _ => []
  | fuel + 1, l =>
    match l with
    | [] => []
    | c :: r =>
      if c = '#' then
        match splitAtNl r with
        | none => c :: r
        | some after => '\n' :: stripGo fuel after
      else c :: stripGo fuel r

/-- `fn strip_comment`: `Regex::new(r"#.*\n").replace_all(input, b"\n")`.
In Rust this is wrapped as `IResult::Done(b"", result)`, i.e. it always
succeeds; we model the pure buffer-to-buffer function. -/
def strip_comment (input : Input) : Input := stripGo (input.length + 1) input

/-- `core::paramset::Point3f`. -/
structure Point3f where
  x : PFloat
  y : PFloat
  z : PFloat
deriving Repr, DecidableEq

/-- `core::paramset::Value`: every variant is list-shaped (a `ParamList`). -/
inductive Value where
  | bool (xs : List Bool)
  | float (xs : List PFloat)
  | int (xs : List Int)
  | string (xs : List Input)
  | point3f (xs : List Point3f)
  | rgb (xs : List PFloat)
  | blackbody (xs : List PFloat)
  | texture (xs : List Input)
deriving Repr

/-- `ParamSetItem`, modelled from the spec (`core::paramset` is not under
`src/`): one `(name, value)` pair. -/
structure ParamSetItem where
  name : Input
  value : Value
deriving Repr

/-- `ParamSet`, modelled from the spec (`core::paramset` is not under
`src/`): the ordered sequence of items, insertion order preserved; the
`Vec<ParamSetItem> -> ParamSet` conversion used by the parser is the
identity on this sequence. -/
abbrev ParamSet := List ParamSetItem

/-- `enum OptionsBlock`. -/
inductive OptionsBlock where
  | look_at (ex ey ez lx ly lz ux uy uz : PFloat)
  | camera (name : Input) (ps : ParamSet)
  | sampler (name : Input) (ps : ParamSet)
  | integrator (name : Input) (ps : ParamSet)
  | film (name : Input) (ps : ParamSet)
deriving Repr

/-- `enum WorldBlock` (recursive through `Attribute`). -/
inductive WorldBlock where
  | attribute (objs : List WorldBlock)
  | light_source (name : Input) (ps : ParamSet)
  | material (name : Input) (ps : ParamSet)
  | shape (name : Input) (ps : ParamSet)
  | translate (x y z : PFloat)
  | texture (name typ cls : Input) (ps : ParamSet)
deriving Repr

/-- `struct Scene`. -/
structure Scene where
  options : List OptionsBlock
  world_objects : List WorldBlock
deriving Repr

/-- `quoted_name`: `delimited!(tag!("\x22"), alphanumeric, tag!("\x22"))`. -/
def quoted_name (i : Input) : NR Input :=
  nbind (tagP ['"'] i) fun i _ =>
  nbind (alphanumeric i) fun i name =>
  nbind (tagP ['"'] i) fun i _ => .done i name

/-- `take_until!("\x22")`: everything up to the next quote; `Incomplete`
when no quote follows. -/
def takeUntilQuote (i : Input) : NR Input :=
  let pre := i.takeWhile (fun c => c ≠ '"')
  if pre.length = i.length then .incomplete else .done (i.drop pre.length) pre

/-- `ascii`: `delimited!(tag!("\x22"), take_until!("\x22"), tag!("\x22"))`. -/
def ascii (i : Input) : NR Input :=
  nbind (tagP ['"'] i) fun i _ =>
  nbind (takeUntilQuote i) fun i s =>
  nbind (tagP ['"'] i) fun i _ => .done i s

/-- An iteration of `many1!` under `ws!`: the separator is eaten before each
occurrence of the inner parser. -/
def many1Sep {α : Type} (p : Input → NR α) (i : Input) : NR (List α) :=
  many1P (fun j => p (sp j)) i

/-- `ws!(delimited!(tag!("["), many1!(p), tag!("]")))`. -/
def bracketedMany1WS {α : Type} (p : Input → NR α) (i : Input) : NR (List α) :=
  wsTrail <|
  nbind (tagP ['['] (sp i)) fun i _ =>
  nbind (many1Sep p i) fun i vs =>
  nbind (tagP [']'] (sp i)) fun i _ => .done i vs

/-- `ws!(many1!(p))`. -/
def bareMany1WS {α : Type} (p : Input → NR α) (i : Input) : NR (List α) :=
  wsTrail (many1Sep p i)

/-- The shared shape of `param_set_item_values_{bool,float,rgb,blackbody,
integer}`: `alt!(ws!(delimited!(tag!("["), many1!(p), tag!("]"))) |
ws!(many1!(p)))`, wrapped into a list-shaped `Value`. -/
def valuesListShaped {α : Type} (p : Input → NR α) (mk : List α → Value)
    (i : Input) : NR Value :=
  nmap mk (altP [bracketedMany1WS p, bareMany1WS p] i)

/-- `param_set_item_values_bool`. -/
def param_set_item_values_bool : Input → NR Value :=
  valuesListShaped bool Value.bool

/-- `param_set_item_values_float`. -/
def param_set_item_values_float : Input → NR Value :=
  valuesListShaped number Value.float

/-- `param_set_item_values_rgb`. -/
def param_set_item_values_rgb : Input → NR Value :=
  valuesListShaped number Value.rgb

/-- `param_set_item_values_blackbody`. -/
def param_set_item_values_blackbody : Input → NR Value :=
  valuesListShaped number Value.blackbody

/-- `param_set_item_values_integer`. -/
def param_set_item_values_integer : Input → NR Value :=
  valuesListShaped integer Value.int

/-- `parse_point3f`: `ws!(do_parse!(x: number >> y: number >> z: number))`. -/
def parse_point3f (i : Input) : NR Point3f :=
  wsTrail <|
  nbind (number (sp i)) fun i x =>
  nbind (number (sp i)) fun i y =>
  nbind (number (sp i)) fun i z => .done i (Point3f.mk x y z)

/-- `param_set_item_values_point`: a bracketed run of one-or-more float
triples (no bare form). -/
def param_set_item_values_point (i : Input) : NR Value :=
  wsTrail <|
  nbind (tagP ['['] (sp i)) fun i _ =>
  nbind (many1Sep parse_point3f i) fun i ps =>
  nbind (tagP [']'] (sp i)) fun i _ => .done i (Value.point3f ps)

/-- The shared shape of `param_set_item_values_{string,texture}`:
`alt!(bracketed many1 ascii | single bare ascii)`, each branch `ws!`-wrapped. -/
def valuesQuoted (mk : List Input → Value) (i : Input) : NR Value :=
  altP [
    fun j => nmap mk (bracketedMany1WS ascii j),
    fun j => nmap (fun v => mk [v]) (wsTrail (ascii (sp j)))] i

/-- `param_set_item_values_string`. -/
def param_set_item_values_string : Input → NR Value :=
  valuesQuoted Value.string

/-- `param_set_item_values_texture`. -/
def param_set_item_values_texture : Input → NR Value :=
  valuesQuoted Value.texture

/-- `fn param_set_item_values`: dispatch on the type tag; an unrecognized
tag hits the `panic!("unhandled param_set_item ...")` arm, modelled as the
`panicked` outcome carrying the tag. -/
def param_set_item_values (psi_type : Input) (input : Input) : NR Value :=
  if psi_type = chars "bool" then param_set_item_values_bool input
  else if psi_type = chars "float" then param_set_item_values_float input
  else if psi_type = chars "integer" then param_set_item_values_integer input
  else if psi_type = chars "string" then param_set_item_values_string input
  else if psi_type = chars "point" then param_set_item_values_point input
  else if psi_type = chars "rgb" then param_set_item_values_rgb input
  else if psi_type = chars "texture" then param_set_item_values_texture input
  else if psi_type = chars "blackbody" then param_set_item_values_blackbody input
  else .panicked psi_type

/-- `param_set_item`: `tag!("\x22") >> typ: alphanumeric >> space >>
name: alphanumeric >> tag!("\x22") >> values: call!(param_set_item_values, typ)`
(no `ws!` at this level). -/
def param_set_item (i : Input) : NR ParamSetItem :=
  nbind (tagP ['"'] i) fun i _ =>
  nbind (alphanumeric i) fun i typ =>
  nbind (space i) fun i _ =>
  nbind (alphanumeric i) fun i name =>
  nbind (tagP ['"'] i) fun i _ =>
  nbind (param_set_item_values typ i) fun i v =>
  .done i (ParamSetItem.mk name v)

/-- `param_set`: `many0!(param_set_item)`. -/
def param_set (i : Input) : NR (List ParamSetItem) :=
  many0P param_set_item i

/-- The shared shape of the `KEYWORD >> quoted_name >> param_set` directives
(`camera`, `sampler`, `integrator`, `film`, `light_source`, `material`,
`shape`), all `ws!`-wrapped. -/
def nameParamsDirective {α : Type} (kw : String) (mk : Input → ParamSet → α)
    (i : Input) : NR α :=
  wsTrail <|
  nbind (tagP (chars kw) (sp i)) fun i _ =>
  nbind (quoted_name (sp i)) fun i name =>
  nbind (param_set (sp i)) fun i ps =>
  .done i (mk name ps)

/-- `look_at`: `ws!(tag!("LookAt") >> 9 numbers)`. -/
def look_at (i : Input) : NR OptionsBlock :=
  wsTrail <|
  nbind (tagP (chars "LookAt") (sp i)) fun i _ =>
  nbind (number (sp i)) fun i ex =>
  nbind (number (sp i)) fun i ey =>
  nbind (number (sp i)) fun i ez =>
  nbind (number (sp i)) fun i lx =>
  nbind (number (sp i)) fun i ly =>
  nbind (number (sp i)) fun i lz =>
  nbind (number (sp i)) fun i ux =>
  nbind (number (sp i)) fun i uy =>
  nbind (number (sp i)) fun i uz =>
  .done i (OptionsBlock.look_at ex ey ez lx ly lz ux uy uz)

/-- `camera`. -/
def camera : Input → NR OptionsBlock :=
  nameParamsDirective "Camera" OptionsBlock.camera

/-- `sampler`. -/
def sampler : Input → NR OptionsBlock :=
  nameParamsDirective "Sampler" OptionsBlock.sampler

/-- `integrator`. -/
def integrator : Input → NR OptionsBlock :=
  nameParamsDirective "Integrator" OptionsBlock.integrator

/-- `film`. -/
def film : Input → NR OptionsBlock :=
  nameParamsDirective "Film" OptionsBlock.film

/-- `option_block`: `many1!(alt!(film | look_at | camera | sampler |
integrator))` (the `dbg_dmp!` wrapper only logs and is semantically
transparent). -/
def option_block (i : Input) : NR (List OptionsBlock) :=
  many1P (altP [film, look_at, camera, sampler, integrator]) i

/-- `light_source`. -/
def light_source : Input → NR WorldBlock :=
  nameParamsDirective "LightSource" WorldBlock.light_source

/-- `material`. -/
def material : Input → NR WorldBlock :=
  nameParamsDirective "Material" WorldBlock.material

/-- `shape`. -/
def shape : Input → NR WorldBlock :=
  nameParamsDirective "Shape" WorldBlock.shape

/-- `translate`: `ws!(tag!("Translate") >> 3 numbers)`. -/
def translate (i : Input) : NR WorldBlock :=
  wsTrail <|
  nbind (tagP (chars "Translate") (sp i)) fun i _ =>
  nbind (number (sp i)) fun i x =>
  nbind (number (sp i)) fun i y =>
  nbind (number (sp i)) fun i z =>
  .done i (WorldBlock.translate x y z)

/-- `texture` (world block): `ws!(tag!("Texture") >> 3 quoted names >>
param_set)`. -/
def texture (i : Input) : NR WorldBlock :=
  wsTrail <|
  nbind (tagP (chars "Texture") (sp i)) fun i _ =>
  nbind (quoted_name (sp i)) fun i name =>
  nbind (quoted_name (sp i)) fun i typ =>
  nbind (quoted_name (sp i)) fun i cls =>
  nbind (param_set (sp i)) fun i ps =>
  .done i (WorldBlock.texture name typ cls ps)

/-- The mutual recursion `world_objects`/`attribute`, with fuel for the
`AttributeBegin` nesting (each level consumes the 14-character tag before
recursing, so the fuel chosen by `world_objects` is never exhausted).
`world_objects` is `many1!(alt!(shape | texture | material | attribute |
translate | light_source))`; `attribute` is `ws!(tag!("AttributeBegin") >>
world_objects >> tag!("AttributeEnd"))`. -/
def worldObjectsF : Nat → Input → NR (List WorldBlock)
  | 0, _ => .incomplete
  | fuel + 1, i =>
    let attributeF : Input → NR WorldBlock := fun j =>
      wsTrail <|
      nbind (tagP (chars "AttributeBegin") (sp j)) fun j _ =>
      nbind (worldObjectsF fuel (sp j)) fun j objs =>
      nbind (tagP (chars "AttributeEnd") (sp j)) fun j _ =>
      .done j (WorldBlock.attribute objs)
    many1P (altP [shape, texture, material, attributeF, translate, light_source]) i

/-- `world_objects` (entry point; fuel as documented on `worldObjectsF`). -/
def world_objects (i : Input) : NR (List WorldBlock) :=
  worldObjectsF (i.length + 1) i

/-- `attribute` (entry point): `ws!(tag!("AttributeBegin") >> world_objects
>> tag!("AttributeEnd"))`. -/
def «attribute» (i : Input) : NR WorldBlock :=
  wsTrail <|
  nbind (tagP (chars "AttributeBegin") (sp i)) fun i _ =>
  nbind (world_objects (sp i)) fun i objs =>
  nbind (tagP (chars "AttributeEnd") (sp i)) fun i _ =>
  .done i (WorldBlock.attribute objs)

/-- `parse_scene_macro`: `ws!(option_block >> tag!("WorldBegin") >>
world_objects >> tag!("WorldEnd"))`. -/
def parse_scene_macro (i : Input) : NR Scene :=
  wsTrail <|
  nbind (option_block (sp i)) fun i options =>
  nbind (tagP (chars "WorldBegin") (sp i)) fun i _ =>
  nbind (world_objects (sp i)) fun i objs =>
  nbind (tagP (chars "WorldEnd") (sp i)) fun i _ =>
  .done i (Scene.mk options objs)

/-- The public result type of `parse_scene`: `Result<Scene, Error>` where
`Error` is `NomError | NomIncomplete`, extended with the `panicked` outcome
(a Rust `panic!` reaches `parse_scene`'s caller as a process abort, not as
a `Result`). -/
inductive SceneResult where
  | ok (scene : Scene)
  | errNom
  | errIncomplete
  | panicked (tag : Input)
deriving Repr

/-- `fn parse_scene`: strip comments (always `Done`), run the grammar, and
map the nom result onto `Result`; note the `IResult::Done(_, scene)` arm
discards any unconsumed rest. -/
def parse_scene (input : Input) : SceneResult :=
  match parse_scene_macro (strip_comment input) with
  | .done _ scene => .ok scene
  | .error => .errNom
  | .incomplete => .errIncomplete
  | .panicked t => .panicked t

/-- Canonical single-directive renderings used to state the order/
multiplicity property of the option block (one canonical instance per
directive kind, each ending in a single separating space). -/
inductive OptTok where
  | film
  | lookAt
  | camera
  | sampler
  | integrator
deriving Repr, DecidableEq

/-- Render the canonical text of one option directive. -/
def renderTok : OptTok → Input
  | .film => chars "Film \"x\" "
  | .lookAt => chars "LookAt 0 0 0 0 0 0 0 0 0 "
  | .camera => chars "Camera \"x\" "
  | .sampler => chars "Sampler \"x\" "
  | .integrator => chars "Integrator \"x\" "

/-- The `OptionsBlock` value each canonical directive parses to. -/
def interpTok : OptTok → OptionsBlock
  | .film => OptionsBlock.film (chars "x") []
  | .lookAt => OptionsBlock.look_at 0 0 0 0 0 0 0 0 0
  | .camera => OptionsBlock.camera (chars "x") []
  | .sampler => OptionsBlock.sampler (chars "x") []
  | .integrator => OptionsBlock.integrator (chars "x") []

/-- Render a sequence of canonical option directives. -/
def renderToks (ds : List OptTok) : Input := (ds.map renderTok).flatten

/-- `n` canonical float-literal tokens `1 ` in a row (used to state the
arity property of the point value recognizer for every list length). -/
def onesTokens : Nat → Input
  | 0 => []
  | n + 1 => '1' :: ' ' :: onesTokens n

/-- Boundary condition for a symbolic continuation of the input: it is
empty or starts with a character that neither the whitespace eater nor a
parameter item will consume (not whitespace, not a quote). -/
def goodB : Input → Prop
  | [] => True
  | c :: _ => isWs c = false ∧ c ≠ '"'

/-- The continuation is empty or starts with a character rejected by the
character class `f` (so a maximal-munch scan stops exactly at its head). -/
def headNot (f : Char → Bool) : Input → Prop
  | [] => True
  | c :: _ => f c = false

/-! ## Lemmas about the comment preprocessor -/

theorem stripGo_cons (fuel : Nat) {c : Char} (r : Input) (hc : c ≠ '#') :
    stripGo (fuel + 1) (c :: r) = c :: stripGo fuel r := by
  simp only [stripGo, hc, if_false]

theorem splitAtNl_of_not_mem {l : Input} (h : '\n' ∉ l) : splitAtNl l = none := by
  induction l with
  | nil => rfl
  | cons c r ih =>
    have hc : c ≠ '\n' := fun e => h (e ▸ List.mem_cons_self c r)
    have hr : '\n' ∉ r := fun m => h (List.mem_cons_of_mem c m)
    simp [splitAtNl, hc, ih hr]

theorem splitAtNl_append {c : Input} (post : Input) (h : '\n' ∉ c) :
    splitAtNl (c ++ '\n' :: post) = some post := by
  induction c with
  | nil => simp [splitAtNl]
  | cons x xs ih =>
    have hx : x ≠ '\n' := fun e => h (e ▸ List.mem_cons_self x xs)
    have hxs : '\n' ∉ xs := fun m => h (List.mem_cons_of_mem x m)
    simp [splitAtNl, hx, ih hxs]

theorem splitAtNl_length : ∀ {l a : Input}, splitAtNl l = some a → a.length < l.length := by
  intro l
  induction l with
  | nil => intro a h; cases h
  | cons c r ih =>
    intro a h
    by_cases hc : c = '\n'
    · subst hc
      have hr : r = a := by simpa [splitAtNl] using h
      subst hr
      simp
    · simp only [splitAtNl, hc, if_false] at h
      exact Nat.lt_trans (ih h) (by simp)

theorem stripGo_hash_none (fuel : Nat) (r : Input) (h : splitAtNl r = none) :
    stripGo (fuel + 1) ('#' :: r) = '#' :: r := by
  simp [stripGo, h]

theorem stripGo_hash_some (fuel : Nat) (r a : Input) (h : splitAtNl r = some a) :
    stripGo (fuel + 1) ('#' :: r) = '\n' :: stripGo fuel a := by
  simp [stripGo, h]

theorem stripGo_fuel : ∀ (f1 : Nat) {f2 : Nat} {l : Input},
    l.length < f1 → l.length < f2 → stripGo f1 l = stripGo f2 l := by
  intro f1
  induction f1 with
  | zero => intro f2 l h1 _; omega
  | succ f1 ih =>
    intro f2 l h1 h2
    match f2 with
    | 0 => omega
    | f2 + 1 =>
      match l with
      | [] => rfl
      | c :: r =>
        by_cases hc : c = '#'
        · subst hc
          cases hs : splitAtNl r with
          | none => rw [stripGo_hash_none f1 r hs, stripGo_hash_none f2 r hs]
          | some a =>
            have hl := splitAtNl_length hs
            rw [stripGo_hash_some f1 r a hs, stripGo_hash_some f2 r a hs]
            refine congrArg (List.cons '\n') (ih ?_ ?_)
            · simp only [List.length_cons] at h1
              omega
            · simp only [List.length_cons] at h2
              omega
        · rw [stripGo_cons f1 r hc, stripGo_cons f2 r hc]
          refine congrArg (List.cons c) (ih ?_ ?_)
          · simp only [List.length_cons] at h1
            omega
          · simp only [List.length_cons] at h2
            omega

theorem strip_comment_cons {c : Char} (r : Input) (hc : c ≠ '#') :
    strip_comment (c :: r) = c :: strip_comment r := by
  show stripGo ((c :: r).length + 1) (c :: r) = c :: stripGo (r.length + 1) r
  rw [List.length_cons, stripGo_cons _ r hc]

theorem strip_comment_hash_none (r : Input) (h : splitAtNl r = none) :
    strip_comment ('#' :: r) = '#' :: r := by
  show stripGo (('#' :: r).length + 1) ('#' :: r) = '#' :: r
  rw [List.length_cons, stripGo_hash_none _ r h]

theorem strip_comment_hash_some (r a : Input) (h : splitAtNl r = some a) :
    strip_comment ('#' :: r) = '\n' :: strip_comment a := by
  have hl := splitAtNl_length h
  show stripGo (('#' :: r).length + 1) ('#' :: r) = '\n' :: stripGo (a.length + 1) a
  rw [List.length_cons, stripGo_hash_some _ r a h]
  exact congrArg (List.cons '\n') (stripGo_fuel _ (by omega) (by omega))

theorem strip_comment_no_hash {l : Input} (h : '#' ∉ l) : strip_comment l = l := by
  induction l with
  | nil => rfl
  | cons c r ih =>
    have hc : c ≠ '#' := fun e => h (e ▸ List.mem_cons_self c r)
    have hr : '#' ∉ r := fun m => h (List.mem_cons_of_mem c m)
    rw [strip_comment_cons r hc, ih hr]

theorem strip_comment_no_nl {l : Input} (h : '
' ∉ l) : strip_comment l = l := by
  induction l with
  | nil => rfl
  | cons c r ih =>
    have hr : '
' ∉ r := fun m => h (List.mem_cons_of_mem c m)
    by_cases hc : c = '#'
    · subst hc
      exact strip_comment_hash_none r (splitAtNl_of_not_mem hr)
    · rw [strip_comment_cons r hc, ih hr]

theorem exists_first_nl : ∀ {p : Input}, '
' ∈ p →
    ∃ p1 p2, p = p1 ++ '
' :: p2 ∧ '
' ∉ p1 := by
  intro p hp
  induction p with
  | nil => cases hp
  | cons c r ih =>
    by_cases hc : c = '
'
    · exact ⟨[], r, by simp [hc], by simp⟩
    · have hr : '
' ∈ r := by
        cases List.mem_cons.mp hp with
        | inl h => exact absurd h.symm hc
        | inr h => exact h
      obtain ⟨p1, p2, he, hn⟩ := ih hr
      refine ⟨c :: p1, p2, by simp [he], ?_⟩
      intro m
      cases List.mem_cons.mp m with
      | inl h => exact hc h.symm
      | inr h => exact hn h

theorem strip_comment_append_nl (a b : Input) :
    strip_comment (a ++ '
' :: b)
      = strip_comment (a ++ ['
']) ++ strip_comment b := by
  suffices H : ∀ n (a b : Input), a.length ≤ n →
      strip_comment (a ++ '
' :: b) = strip_comment (a ++ ['
']) ++ strip_comment b from
    H a.length a b le_rfl
  intro n
  induction n with
  | zero =>
    intro a b ha
    have hnil : a = [] := List.length_eq_zero.mp (Nat.le_zero.mp ha)
    subst hnil
    simp only [List.nil_append]
    rw [strip_comment_cons b (by decide), strip_comment_cons ([] : Input) (by decide)]
    rfl
  | succ n IH =>
    intro a b ha
    match a with
    | [] =>
      simp only [List.nil_append]
      rw [strip_comment_cons b (by decide), strip_comment_cons ([] : Input) (by decide)]
      rfl
    | c :: p =>
      by_cases hc : c = '#'
      · subst hc
        by_cases hnl : '
' ∈ p
        · obtain ⟨p1, p2, he, hp1⟩ := exists_first_nl hnl
          subst he
          have e1 : splitAtNl ((p1 ++ '
' :: p2) ++ '
' :: b) = some (p2 ++ '
' :: b) := by
            rw [List.append_assoc, List.cons_append]
            exact splitAtNl_append _ hp1
          have e2 : splitAtNl ((p1 ++ '
' :: p2) ++ ['
']) = some (p2 ++ ['
']) := by
            rw [List.append_assoc, List.cons_append]
            exact splitAtNl_append _ hp1
          have hlen : p2.length ≤ n := by
            simp [List.length_append] at ha
            omega
          have L : strip_comment (('#' :: (p1 ++ '
' :: p2)) ++ '
' :: b)
              = '
' :: strip_comment (p2 ++ '
' :: b) := by
            rw [List.cons_append]
            exact strip_comment_hash_some _ _ e1
          have R : strip_comment (('#' :: (p1 ++ '
' :: p2)) ++ ['
'])
              = '
' :: strip_comment (p2 ++ ['
']) := by
            rw [List.cons_append]
            exact strip_comment_hash_some _ _ e2
          rw [L, R, IH p2 b hlen]
          rfl
        · have e1 : splitAtNl (p ++ '
' :: b) = some b := splitAtNl_append _ hnl
          have e2 : splitAtNl (p ++ ['
']) = some ([] : Input) := splitAtNl_append _ hnl
          have L : strip_comment (('#' :: p) ++ '
' :: b) = '
' :: strip_comment b := by
            rw [List.cons_append]
            exact strip_comment_hash_some _ _ e1
          have R : strip_comment (('#' :: p) ++ ['
']) = ['
'] := by
            rw [List.cons_append, strip_comment_hash_some _ _ e2]
            rfl
          rw [L, R]
          rfl
      · have hlen : p.length ≤ n := by
          simp at ha
          omega
        have L : strip_comment ((c :: p) ++ '
' :: b) = c :: strip_comment (p ++ '
' :: b) := by
          rw [List.cons_append]
          exact strip_comment_cons _ hc
        have R : strip_comment ((c :: p) ++ ['
']) = c :: strip_comment (p ++ ['
']) := by
          rw [List.cons_append]
          exact strip_comment_cons _ hc
        rw [L, R, IH p b hlen]
        rfl

theorem strip_comment_one_comment (pre c post : Input) (hpre : '#' ∉ pre)
    (hc : '
' ∉ c) :
    strip_comment (pre ++ '#' :: (c ++ '
' :: post))
      = pre ++ '
' :: strip_comment post := by
  induction pre with
  | nil =>
    simp only [List.nil_append]
    exact strip_comment_hash_some _ _ (splitAtNl_append _ hc)
  | cons x xs ih =>
    have hx : x ≠ '#' := fun e => hpre (e ▸ List.mem_cons_self x xs)
    have hxs : '#' ∉ xs := fun m => hpre (List.mem_cons_of_mem x m)
    rw [List.cons_append, strip_comment_cons _ hx, ih hxs, List.cons_append]

/-- C8: the comment preprocessor replaces each run from a `#` up to and
including the next newline with a single newline, leaves comment-free
content unchanged (hence is idempotent on comment-free input), and maps
`"a # x\nb # y\n"` to `"a \nb \n"`. -/
theorem strip_comment_spec :
    (∀ l : Input, '#' ∉ l → strip_comment l = l) ∧
    (∀ l : Input, '#' ∉ l → strip_comment (strip_comment l) = strip_comment l) ∧
    (∀ pre c post : Input, '#' ∉ pre → '
' ∉ c →
      strip_comment (pre ++ '#' :: (c ++ '
' :: post))
        = pre ++ '
' :: strip_comment post) ∧
    strip_comment (chars "a # x
b # y
") = chars "a 
b 
" := by
  refine ⟨fun l h => strip_comment_no_hash h, fun l h => ?_, strip_comment_one_comment, by rfl⟩
  rw [strip_comment_no_hash h, strip_comment_no_hash h]

/-- C8 witness: the universal parts of `strip_comment_spec` instantiated at
concrete inputs. -/
theorem strip_comment_spec_witness :
    strip_comment (chars "ab
cd") = chars "ab
cd" ∧
    strip_comment (chars "a " ++ '#' :: (chars " x" ++ '
' :: ([] : Input)))
      = chars "a " ++ '
' :: strip_comment [] :=
  ⟨strip_comment_spec.1 (chars "ab
cd") (by decide),
   strip_comment_spec.2.2.1 (chars "a ") (chars " x") ([] : Input) (by decide) (by decide)⟩

/-- C9: a trailing `#` comment not terminated by a newline is left in the
output unchanged: a buffer whose first character is that `#` with no
newline after it passes through unchanged, and for a buffer ending in
`...\n#tail` with no newline in `tail`, everything from the final `#` on
is appended verbatim; only comment runs terminated by a newline are
stripped. -/
theorem strip_comment_unterminated :
    (∀ tail : Input, '
' ∉ tail → strip_comment ('#' :: tail) = '#' :: tail) ∧
    (∀ pre tail : Input, '
' ∉ tail →
      strip_comment (pre ++ '
' :: '#' :: tail)
        = strip_comment (pre ++ ['
']) ++ '#' :: tail) := by
  constructor
  · intro tail h
    exact strip_comment_hash_none tail (splitAtNl_of_not_mem h)
  · intro pre tail h
    rw [strip_comment_append_nl pre ('#' :: tail)]
    rw [strip_comment_hash_none tail (splitAtNl_of_not_mem h)]

/-- C9 witness: both parts of `strip_comment_unterminated` at concrete
inputs. -/
theorem strip_comment_unterminated_witness :
    strip_comment ('#' :: chars " x") = '#' :: chars " x" ∧
    strip_comment (chars "a" ++ '
' :: '#' :: chars " y")
      = strip_comment (chars "a" ++ ['
']) ++ '#' :: chars " y" :=
  ⟨strip_comment_unterminated.1 (chars " x") (by decide),
   strip_comment_unterminated.2 (chars "a") (chars " y") (by decide)⟩

/-! ## General lemmas about the nom combinators on symbolic inputs -/

theorem isPrefixOf_append (t r : Input) : t.isPrefixOf (t ++ r) = true := by
  induction t with
  | nil => cases r <;> rfl
  | cons c cs ih => simp [List.isPrefixOf, ih]

theorem drop_len_append (t r : Input) : (t ++ r).drop t.length = r := by
  induction t with
  | nil => rfl
  | cons c cs ih => simp [ih]

theorem take_minus_append (pre post : Input) :
    (pre ++ post).take ((pre ++ post).length - post.length) = pre := by
  have h : (pre ++ post).length - post.length = pre.length := by simp
  rw [h]
  induction pre with
  | nil => rfl
  | cons c cs ih => simp [ih]

theorem tagP_append (t r : Input) : tagP t (t ++ r) = .done r t := by
  simp [tagP, isPrefixOf_append, drop_len_append]

theorem tagP_cons_ne {a c : Char} (t1 t2 : Input) (h : a ≠ c) :
    tagP (a :: t1) (c :: t2) = .error := by
  simp [tagP, List.isPrefixOf, h, Ne.symm h]

theorem takeWhile_append_of_all {f : Char → Bool} (ds t : Input)
    (hall : ∀ c ∈ ds, f c = true) (ht : headNot f t) :
    (ds ++ t).takeWhile f = ds := by
  induction ds with
  | nil =>
    cases t with
    | nil => rfl
    | cons c r =>
      have hc : f c = false := ht
      simp [List.takeWhile_cons, hc]
  | cons d dsr ih =>
    have hd : f d = true := hall d (List.mem_cons_self d dsr)
    simp [List.takeWhile_cons, hd, ih (fun c m => hall c (List.mem_cons_of_mem d m))]

theorem charClass1_append {f : Char → Bool} (ds t : Input) (hne : ds ≠ [])
    (hall : ∀ c ∈ ds, f c = true) (ht : headNot f t) :
    charClass1 f (ds ++ t) = .done t ds := by
  have tw := takeWhile_append_of_all ds t hall ht
  have dr := drop_len_append ds t
  cases ds with
  | nil => exact absurd rfl hne
  | cons d dsr =>
    have hemp : ((d :: dsr) ++ t).isEmpty = false := rfl
    simp only [charClass1]
    rw [tw]
    simp only [hemp, List.isEmpty_cons, Bool.false_eq_true, if_false]
    rw [dr]

theorem signOpt_no_sign {c : Char} (r : Input) (h1 : c ≠ '+') (h2 : c ≠ '-') :
    signOpt (c :: r) = .done (c :: r) none := by
  simp [signOpt, optP, altP,
    tagP_cons_ne ([] : Input) r (Ne.symm h1),
    tagP_cons_ne ([] : Input) r (Ne.symm h2)]

theorem signOpt_plus (r : Input) : signOpt ('+' :: r) = .done r (some ['+']) := by
  have h := tagP_append ['+'] r
  simp only [List.singleton_append] at h
  simp [signOpt, optP, altP, h]

theorem signOpt_minus (r : Input) : signOpt ('-' :: r) = .done r (some ['-']) := by
  have h := tagP_append ['-'] r
  simp only [List.singleton_append] at h
  have hplus : tagP ['+'] ('-' :: r) = .error :=
    tagP_cons_ne ([] : Input) r (show ('+' : Char) ≠ '-' by decide)
  simp [signOpt, optP, altP, hplus, h]

theorem digit_append (ds t : Input) (hne : ds ≠ [])
    (hall : ∀ c ∈ ds, isDig c = true) (ht : headNot isDig t) :
    digit (ds ++ t) = .done t ds :=
  charClass1_append ds t hne hall ht

theorem signOpt_none_append (ds t : Input) (hne : ds ≠ [])
    (hall : ∀ c ∈ ds, isDig c = true) :
    signOpt (ds ++ t) = .done (ds ++ t) none := by
  cases ds with
  | nil => exact absurd rfl hne
  | cons d dsr =>
    have hd := hall d (List.mem_cons_self d dsr)
    have hdp : d ≠ '+' := fun e => by subst e; exact absurd hd (by decide)
    have hdm : d ≠ '-' := fun e => by subst e; exact absurd hd (by decide)
    simpa only [List.cons_append] using signOpt_no_sign (dsr ++ t) hdp hdm

theorem sp_of_headNot {t : Input} (h : headNot isWs t) : sp t = t := by
  cases t with
  | nil => rfl
  | cons c r =>
    have hc : isWs c = false := h
    simp [sp, List.dropWhile_cons, hc]

/-! ## Lemmas about parse_to on digit strings -/

theorem all_isDig_of_forall {ds : Input} (hall : ∀ c ∈ ds, isDig c = true) :
    ds.all isDig = true :=
  List.all_eq_true.mpr hall

theorem parse_to_i64_digits (ds : Input) (hne : ds ≠ [])
    (hall : ∀ c ∈ ds, isDig c = true) (hr : digitsVal ds < 2 ^ 63) :
    parse_to_i64 ds = some (digitsVal ds : Int) := by
  cases ds with
  | nil => exact absurd rfl hne
  | cons d ds2 =>
    have hd := hall d (List.mem_cons_self d ds2)
    have hdp : d ≠ '+' := fun e => by subst e; exact absurd hd (by decide)
    have hdm : d ≠ '-' := fun e => by subst e; exact absurd hd (by decide)
    have hrn : digitsVal (d :: ds2) < 9223372036854775808 := by simpa using hr
    simp [parse_to_i64, splitSign, hdp, hdm, all_isDig_of_forall hall, hrn]

theorem parse_to_i64_plus (ds : Input) (hne : ds ≠ [])
    (hall : ∀ c ∈ ds, isDig c = true) (hr : digitsVal ds < 2 ^ 63) :
    parse_to_i64 ('+' :: ds) = some (digitsVal ds : Int) := by
  have hrn : digitsVal ds < 9223372036854775808 := by simpa using hr
  simp [parse_to_i64, splitSign, hne, all_isDig_of_forall hall, hrn]

theorem parse_to_i64_minus (ds : Input) (hne : ds ≠ [])
    (hall : ∀ c ∈ ds, isDig c = true) (hr : digitsVal ds < 2 ^ 63) :
    parse_to_i64 ('-' :: ds) = some (-(digitsVal ds : Int)) := by
  have hrn : digitsVal ds ≤ 9223372036854775808 := by
    have := Nat.le_of_lt hr
    simpa using this
  simp [parse_to_i64, splitSign, hne, all_isDig_of_forall hall, hrn]

theorem parseToP_done_some {α : Type} {t i : Input} {conv : Input → Option α} {v : α}
    (h : conv (i.take (i.length - t.length)) = some v) :
    parseToP (.done t ()) i conv = .done t v := by
  show (match conv (i.take (i.length - t.length)) with
    | some v => NR.done t v
    | none => NR.error) = NR.done t v
  rw [h]

/-- C2 (amended): for every parameter item whose type tag is not one of
bool, float, integer, string, point, rgb, texture, blackbody, the
parameter value recognizer does not return a recoverable error value: it
hits the `panic!` arm and aborts the process, with the panic message
carrying the offending tag. -/
theorem param_set_item_values_unknown_tag (typ : Input)
    (h : typ ∉ [chars "bool", chars "float", chars "integer", chars "string",
                chars "point", chars "rgb", chars "texture", chars "blackbody"]) :
    ∀ input : Input, param_set_item_values typ input = .panicked typ := by
  intro input
  simp only [List.mem_cons, not_or] at h
  obtain ⟨h1, h2, h3, h4, h5, h6, h7, h8, -⟩ := h
  simp [param_set_item_values, h1, h2, h3, h4, h5, h6, h7, h8]

/-- C2 witness: the amended theorem applied to the tag `vec` and an
arbitrary concrete value region. -/
theorem param_set_item_values_unknown_tag_witness :
    param_set_item_values (chars "vec") (chars "[9]") = .panicked (chars "vec") :=
  param_set_item_values_unknown_tag (chars "vec") (by decide) (chars "[9]")

/-- C4 (amended): the integer recognizer accepts an optional leading `+` or
`-` followed by one or more digits and returns the corresponding 64-bit
integer (`-1` → -1, `400` → 400); but an input containing a decimal point
is not rejected outright: the recognizer consumes the maximal digit prefix
and leaves the rest, so `1.5` yields 1 with `.5` unconsumed (the decimal
point is never part of the recognized integer). -/
theorem integer_amended :
    (∀ sg ds t : Input,
      sg = [] ∨ sg = ['+'] ∨ sg = ['-'] →
      ds ≠ [] →
      (∀ c ∈ ds, isDig c = true) →
      headNot isDig t →
      digitsVal ds < 2 ^ 63 →
      integer (sg ++ (ds ++ t))
        = .done t (if sg = ['-'] then -(digitsVal ds : Int) else (digitsVal ds : Int))) ∧
    integer (chars "-1") = .done [] (-1) ∧
    integer (chars "400") = .done [] 400 ∧
    integer (chars "1.5") = .done (chars ".5") 1 := by
  refine ⟨?_, rfl, rfl, rfl⟩
  intro sg ds t hsg hne hall ht hr
  have hdig : digit (ds ++ t) = .done t ds := digit_append ds t hne hall ht
  have hcomp : completeP digit (ds ++ t) = .done t ds := by
    unfold completeP
    rw [hdig]
  rcases hsg with rfl | rfl | rfl
  · simp only [List.nil_append, if_neg (by simp : ¬([] : Input) = ['-'])]
    show parseToP
      (nbind (signOpt (ds ++ t)) fun i1 _ => toUnit (completeP digit i1))
      (ds ++ t) parse_to_i64 = .done t (digitsVal ds : Int)
    rw [signOpt_none_append ds t hne hall]
    show parseToP (toUnit (completeP digit (ds ++ t))) (ds ++ t) parse_to_i64
      = .done t (digitsVal ds : Int)
    rw [hcomp]
    simp only [toUnit]
    exact parseToP_done_some
      (by rw [take_minus_append ds t]; exact parse_to_i64_digits ds hne hall hr)
  · simp only [if_neg (by decide : ¬(['+'] : Input) = ['-'])]
    show parseToP
      (nbind (signOpt (['+'] ++ (ds ++ t))) fun i1 _ => toUnit (completeP digit i1))
      (['+'] ++ (ds ++ t)) parse_to_i64 = .done t (digitsVal ds : Int)
    rw [show (['+'] : Input) ++ (ds ++ t) = '+' :: (ds ++ t) from rfl, signOpt_plus]
    show parseToP (toUnit (completeP digit (ds ++ t))) ('+' :: (ds ++ t)) parse_to_i64
      = .done t (digitsVal ds : Int)
    rw [hcomp]
    simp only [toUnit]
    refine parseToP_done_some ?_
    rw [← List.cons_append, take_minus_append ('+' :: ds) t]
    exact parse_to_i64_plus ds hne hall hr
  · simp only [if_pos rfl]
    show parseToP
      (nbind (signOpt (['-'] ++ (ds ++ t))) fun i1 _ => toUnit (completeP digit i1))
      (['-'] ++ (ds ++ t)) parse_to_i64 = .done t (-(digitsVal ds : Int))
    rw [show (['-'] : Input) ++ (ds ++ t) = '-' :: (ds ++ t) from rfl, signOpt_minus]
    show parseToP (toUnit (completeP digit (ds ++ t))) ('-' :: (ds ++ t)) parse_to_i64
      = .done t (-(digitsVal ds : Int))
    rw [hcomp]
    simp only [toUnit]
    refine parseToP_done_some ?_
    rw [← List.cons_append, take_minus_append ('-' :: ds) t]
    exact parse_to_i64_minus ds hne hall hr

/-- C4 witness: the universal part of `integer_amended` instantiated at
the literal `-17` followed by a space. -/
theorem integer_amended_witness :
    integer (['-'] ++ (chars "17" ++ [' ']))
      = .done [' '] (if (['-'] : Input) = ['-'] then -(digitsVal (chars "17") : Int)
          else (digitsVal (chars "17") : Int)) :=
  integer_amended.1 ['-'] (chars "17") [' '] (Or.inr (Or.inr rfl)) (by decide)
    (by decide) (by decide : isDig ' ' = false) (by decide)

/-- C5: the permissive numeric recognizer accepts `3.14` as 3.14, `.1` as
0.1, `3.` as 3.0 (consuming the trailing dot rather than stopping at `3`),
and `4` as 4.0, and rejects `.` and `e5` standing alone. -/
theorem number_permissive_literals :
    number (chars "3.14") = .done [] (mkRat 157 50) ∧
    number (chars ".1") = .done [] (mkRat 1 10) ∧
    number (chars "3.") = .done [] (3 : PFloat) ∧
    number (chars "4") = .done [] (4 : PFloat) ∧
    number (chars ".") = .error ∧
    number (chars "e5") = .error :=
  ⟨rfl, rfl, rfl, rfl, rfl, rfl⟩

/-- C6: parsing the world-block text `AttributeBegin Material "mirror"
Shape "sphere" "float radius" 1 AttributeEnd` yields
`Attribute([Material("mirror", {}), Shape("sphere", {radius: Float[1.0]})])`,
with the nested blocks in source order and the bare scalar `1` normalized
to a one-element float list. -/
theorem attribute_material_shape_example :
    «attribute»
      (chars "AttributeBegin Material \"mirror\" Shape \"sphere\" \"float radius\" 1 AttributeEnd")
      = .done []
          (WorldBlock.attribute
            ([WorldBlock.material (chars "mirror") [],
              WorldBlock.shape (chars "sphere")
                [ParamSetItem.mk (chars "radius") (Value.float [1])]])) :=
  rfl

/-- C1 (amended): `parse_scene` returns a `Scene` exactly when the grammar
matches a prefix of the comment-stripped input: trailing unconsumed
content (after `WorldEnd`) is silently discarded rather than reported as
an error, and on any failure outcome no partial `Scene` value is
returned. -/
theorem parse_scene_done_iff (input : Input) :
    (∀ rest scene, parse_scene_macro (strip_comment input) = .done rest scene →
      parse_scene input = .ok scene) ∧
    (∀ scene, parse_scene input = .ok scene →
      ∃ rest, parse_scene_macro (strip_comment input) = .done rest scene) := by
  constructor
  · intro rest scene h
    simp [parse_scene, h]
  · intro scene h
    cases hm : parse_scene_macro (strip_comment input) with
    | done r s =>
      simp [parse_scene, hm] at h
      subst h
      exact ⟨r, rfl⟩
    | error => simp [parse_scene, hm] at h
    | incomplete => simp [parse_scene, hm] at h
    | panicked t => simp [parse_scene, hm] at h

/-- C1 witness: the first part of `parse_scene_done_iff` applied to a
concrete scene text (here one whose grammar consumes the whole input). -/
theorem parse_scene_done_iff_witness :
    parse_scene (chars "Integrator \"path\" WorldBegin Material \"mirror\" WorldEnd")
      = .ok (Scene.mk [OptionsBlock.integrator (chars "path") []]
          [WorldBlock.material (chars "mirror") []]) :=
  (parse_scene_done_iff _).1 [] _ (by rfl)

/-- C7 helper: for any single-literal recognizer `lit` and list-shaped
constructor `mk`, a literal token `s` (fully consumed by `lit`, unaffected
by a following `]`, no leading whitespace, not starting with `[`) parses
to the same one-element list value in bracketed and in bare form. -/
theorem valuesListShaped_bracket_bare {α : Type} (lit : Input → NR α)
    (mk : List α → Value) (s : Input) (v : α)
    (h1 : lit s = .done [] v)
    (h2 : lit (s ++ [']']) = .done [']'] v)
    (h3 : sp s = s)
    (h4 : sp (s ++ [']']) = s ++ [']'])
    (h5 : tagP ['['] s = .error)
    (h6 : lit [']'] = .error) :
    valuesListShaped lit mk ('[' :: (s ++ [']'])) = .done [] (mk [v]) ∧
    valuesListShaped lit mk s = .done [] (mk [v]) := by
  have hmany_br : many1Sep lit (s ++ [']']) = .done [']'] [v] := by
    simp only [many1Sep, many1P, h4, h2]
    simp only [manyLoop, show sp ([']'] : Input) = [']'] from rfl, h6]
    simp
  have hsp1 : sp ('[' :: (s ++ [']'])) = '[' :: (s ++ [']']) :=
    sp_of_headNot (by decide : isWs '[' = false)
  have htag1 : tagP ['['] ('[' :: (s ++ [']'])) = .done (s ++ [']']) ['['] := by
    simpa using tagP_append ['['] (s ++ [']'])
  have hbr : bracketedMany1WS lit ('[' :: (s ++ [']'])) = .done [] [v] := by
    simp only [bracketedMany1WS, hsp1, htag1, nbind, hmany_br,
      show sp ([']'] : Input) = [']'] from rfl,
      show tagP [']'] ([']'] : Input) = .done [] [']'] from rfl,
      wsTrail, show sp ([] : Input) = [] from rfl]
  have hbrs : bracketedMany1WS lit s = .error := by
    simp only [bracketedMany1WS, h3, h5, nbind, wsTrail]
  have hmany_bare : many1Sep lit s = .done [] [v] := by
    simp only [many1Sep, many1P, h3, h1]
    simp [manyLoop]
  have hbare : bareMany1WS lit s = .done [] [v] := by
    simp only [bareMany1WS, hmany_bare, wsTrail, show sp ([] : Input) = [] from rfl]
  constructor
  · simp only [valuesListShaped, altP, hbr, nmap]
  · simp only [valuesListShaped, altP, hbrs, hbare, nmap]

/-- C7: for every single literal token of type integer — and likewise bool
and float — parsing the bracketed form `[v]` and the bare form `v` as a
parameter value produces the identical one-element list-shaped `Value`
(e.g. `"integer foo" [400]` and `"integer foo" 400 both yield
`Value::Int([400])`).  A literal token is a string fully consumed by the
corresponding literal recognizer, unaffected by a following `]`, with no
leading whitespace and not starting with `[`. -/
theorem param_set_item_values_scalar_normalization :
    (∀ (s : Input) (v : Int),
      integer s = .done [] v → integer (s ++ [']']) = .done [']'] v →
      sp s = s → sp (s ++ [']']) = s ++ [']'] → tagP ['['] s = .error →
      param_set_item_values_integer ('[' :: (s ++ [']'])) = .done [] (Value.int [v]) ∧
      param_set_item_values_integer s = .done [] (Value.int [v])) ∧
    (∀ (s : Input) (v : PFloat),
      number s = .done [] v → number (s ++ [']']) = .done [']'] v →
      sp s = s → sp (s ++ [']']) = s ++ [']'] → tagP ['['] s = .error →
      param_set_item_values_float ('[' :: (s ++ [']'])) = .done [] (Value.float [v]) ∧
      param_set_item_values_float s = .done [] (Value.float [v])) ∧
    (∀ (s : Input) (v : Bool),
      bool s = .done [] v → bool (s ++ [']']) = .done [']'] v →
      sp s = s → sp (s ++ [']']) = s ++ [']'] → tagP ['['] s = .error →
      param_set_item_values_bool ('[' :: (s ++ [']'])) = .done [] (Value.bool [v]) ∧
      param_set_item_values_bool s = .done [] (Value.bool [v])) :=
  ⟨fun s v h1 h2 h3 h4 h5 =>
    valuesListShaped_bracket_bare integer Value.int s v h1 h2 h3 h4 h5 rfl,
   fun s v h1 h2 h3 h4 h5 =>
    valuesListShaped_bracket_bare number Value.float s v h1 h2 h3 h4 h5 rfl,
   fun s v h1 h2 h3 h4 h5 =>
    valuesListShaped_bracket_bare bool Value.bool s v h1 h2 h3 h4 h5 rfl⟩

/-- C7 witness: the three parts of the normalization theorem instantiated
at the literals `400` (integer), `.5` (float) and `true` (bool). -/
theorem param_set_item_values_scalar_normalization_witness :
    (param_set_item_values_integer ('[' :: (chars "400" ++ [']']))
        = .done [] (Value.int [400]) ∧
      param_set_item_values_integer (chars "400") = .done [] (Value.int [400])) ∧
    (param_set_item_values_float ('[' :: (chars ".5" ++ [']']))
        = .done [] (Value.float [mkRat 1 2]) ∧
      param_set_item_values_float (chars ".5") = .done [] (Value.float [mkRat 1 2])) ∧
    (param_set_item_values_bool ('[' :: (chars "true" ++ [']']))
        = .done [] (Value.bool [true]) ∧
      param_set_item_values_bool (chars "true") = .done [] (Value.bool [true])) :=
  ⟨param_set_item_values_scalar_normalization.1 (chars "400") 400
      rfl rfl rfl rfl rfl,
   param_set_item_values_scalar_normalization.2.1 (chars ".5") (mkRat 1 2)
      rfl rfl rfl rfl rfl,
   param_set_item_values_scalar_normalization.2.2 (chars "true") true
      rfl rfl rfl rfl rfl⟩

/-! ## Lemmas for the point-value arity property (C10) -/

theorem sp_cons_not {c : Char} (r : Input) (h : isWs c = false) : sp (c :: r) = c :: r := by
  show (c :: r).dropWhile isWs = c :: r
  rw [List.dropWhile_cons, h]
  simp

theorem sp_space (r : Input) (h : headNot isWs r) : sp (' ' :: r) = r := by
  show (' ' :: r).dropWhile isWs = r
  rw [List.dropWhile_cons, show isWs ' ' = true from rfl]
  simp only [if_true]
  exact sp_of_headNot h

theorem sp_space_cons (c : Char) (r : Input) (h : isWs c = false) :
    sp (' ' :: c :: r) = c :: r :=
  sp_space (c :: r) h

theorem parse_to_float_digit (d : Char) (hd : isDig d = true)
    (hdp : d ≠ '+') (hdm : d ≠ '-') :
    parse_to_float [d] = some (decToRat false [d] [] false 0) := by
  simp [parse_to_float, splitSign, hdp, hdm, List.takeWhile_cons, hd, parseExpSuffix]

theorem number_digit_tok (d : Char) (r : Input) (hd : isDig d = true)
    (hdp : d ≠ '+') (hdm : d ≠ '-') :
    number (d :: ' ' :: r) = .done (' ' :: r) (decToRat false [d] [] false 0) := by
  have hsign := signOpt_no_sign (' ' :: r) hdp hdm
  have hdig : digit (d :: ' ' :: r) = .done (' ' :: r) [d] := by
    have h := digit_append [d] (' ' :: r) (by simp)
      (by intro c hc; rw [List.mem_singleton] at hc; subst hc; exact hd)
      (by decide : isDig ' ' = false)
    simpa using h
  have hman : mantissa (d :: ' ' :: r) = .done (' ' :: r) () := by
    simp only [mantissa, altP, completeP, optP, hdig, nbind, toUnit,
      tagP_cons_ne ([] : Input) r (show ('.' : Char) ≠ ' ' by decide)]
  have hexp : expOpt (' ' :: r) = .done (' ' :: r) none := by
    simp only [expOpt, optP, completeP, altP, nbind,
      tagP_cons_ne ([] : Input) r (show ('e' : Char) ≠ ' ' by decide),
      tagP_cons_ne ([] : Input) r (show ('E' : Char) ≠ ' ' by decide)]
  show parseToP
    (nbind (signOpt (d :: ' ' :: r)) fun i1 _ =>
      nbind (mantissa i1) fun i2 _ =>
      nbind (expOpt i2) fun i3 _ => .done i3 ())
    (d :: ' ' :: r) parse_to_float = .done (' ' :: r) (decToRat false [d] [] false 0)
  rw [hsign]
  simp only [nbind]
  rw [hman]
  simp only [nbind]
  rw [hexp]
  simp only [nbind]
  refine parseToP_done_some ?_
  rw [show (d :: ' ' :: r) = [d] ++ (' ' :: r) from rfl, take_minus_append [d] (' ' :: r)]
  exact parse_to_float_digit d hd hdp hdm

theorem number_one_tok (r : Input) :
    number ('1' :: ' ' :: r) = .done (' ' :: r) (1 : PFloat) := by
  have h := number_digit_tok '1' r (by decide) (by decide) (by decide)
  rwa [show decToRat false ['1'] [] false 0 = (1 : PFloat) by decide] at h

theorem number_zero_tok (r : Input) :
    number ('0' :: ' ' :: r) = .done (' ' :: r) (0 : PFloat) := by
  have h := number_digit_tok '0' r (by decide) (by decide) (by decide)
  rwa [show decToRat false ['0'] [] false 0 = (0 : PFloat) by decide] at h

theorem onesTokens_length (n : Nat) : (onesTokens n).length = 2 * n := by
  induction n with
  | zero => rfl
  | succ n ih => simp [onesTokens, ih]; omega

theorem onesTokens_headNot_ws (k : Nat) : headNot isWs (onesTokens k ++ [']']) := by
  cases k with
  | zero => exact (by decide : isWs ']' = false)
  | succ k2 => exact (by decide : isWs '1' = false)

theorem parse_point3f_ones (k : Nat) :
    parse_point3f (onesTokens (k + 3) ++ [']'])
      = .done (onesTokens k ++ [']']) (Point3f.mk 1 1 1) := by
  have hnw := onesTokens_headNot_ws k
  show parse_point3f
      ('1' :: ' ' :: ('1' :: ' ' :: ('1' :: ' ' :: (onesTokens k ++ [']']))))
    = .done (onesTokens k ++ [']']) (Point3f.mk 1 1 1)
  simp only [parse_point3f]
  rw [sp_cons_not _ (by decide), number_one_tok]
  simp only [nbind]
  rw [sp_space_cons '1' _ (by decide), number_one_tok]
  simp only [nbind]
  rw [sp_space_cons '1' _ (by decide), number_one_tok]
  simp only [nbind, wsTrail]
  rw [sp_space _ hnw]

theorem manyLoop_ones : ∀ m : Nat, m % 3 ≠ 0 →
    ∀ (fuel : Nat) (acc : List Point3f), m < fuel →
      ∃ vs, manyLoop (fun j => parse_point3f (sp j)) fuel (onesTokens m ++ [']']) acc
        = .done (onesTokens (m % 3) ++ [']']) vs := by
  intro m
  induction m using Nat.strong_induction_on with
  | _ m IH =>
    intro hm fuel acc hfuel
    match fuel with
    | 0 => omega
    | fuel + 1 =>
      rcases Nat.lt_or_ge m 3 with h3 | h3
      · interval_cases m
        · omega
        · refine ⟨acc.reverse, ?_⟩
          simp [manyLoop, show parse_point3f (sp (onesTokens 1 ++ [']'])) = NR.error from rfl]
        · refine ⟨acc.reverse, ?_⟩
          simp [manyLoop, show parse_point3f (sp (onesTokens 2 ++ [']'])) = NR.error from rfl]
      · obtain ⟨m2, rfl⟩ : ∃ m2, m = m2 + 3 := ⟨m - 3, by omega⟩
        have hstep : parse_point3f (sp (onesTokens (m2 + 3) ++ [']']))
            = .done (onesTokens m2 ++ [']']) (Point3f.mk 1 1 1) := by
          rw [sp_of_headNot (onesTokens_headNot_ws (m2 + 3))]
          exact parse_point3f_ones m2
        have hne : ¬ (onesTokens (m2 + 3) ++ [']'] = ([] : Input)) := by
          intro h
          cases h
        have hlen : ¬ ((onesTokens m2 ++ [']']).length
            = (onesTokens (m2 + 3) ++ [']']).length) := by
          simp [List.length_append, onesTokens_length]
        obtain ⟨vs, hvs⟩ := IH m2 (by omega) (by omega) fuel
          (Point3f.mk 1 1 1 :: acc) (by omega)
        refine ⟨vs, ?_⟩
        simp only [manyLoop, hne, if_false, hstep, hlen]
        rw [hvs]
        have : m2 % 3 = (m2 + 3) % 3 := by omega
        rw [this]

/-- C10: the point parameter-value recognizer requires a bracketed run and
consumes float literals greedily in triples; a bracketed list whose number
of float literals is not a multiple of three yields a parse error (shown
for every such length over canonical `1 ` tokens, and for the concrete
input `[1 2 3 4]`), rather than silently dropping the leftover floats. -/
theorem param_set_item_values_point_arity :
    (∀ n : Nat, n % 3 ≠ 0 →
      param_set_item_values_point ('[' :: (onesTokens n ++ [']'])) = .error) ∧
    param_set_item_values_point (chars "[1 2 3 4]") = .error := by
  refine ⟨?_, rfl⟩
  intro n hn
  have hsp0 : sp ('[' :: (onesTokens n ++ [']'])) = '[' :: (onesTokens n ++ [']']) :=
    sp_cons_not _ (by decide)
  have htag : tagP ['['] ('[' :: (onesTokens n ++ [']'])) = .done (onesTokens n ++ [']']) ['['] := by
    simpa using tagP_append ['['] (onesTokens n ++ [']'])
  rcases Nat.lt_or_ge n 3 with h3 | h3
  · have hn12 : n = 1 ∨ n = 2 := by omega
    have hfail : many1Sep parse_point3f (onesTokens n ++ [']']) = .error := by
      rcases hn12 with rfl | rfl
      · simp only [many1Sep, many1P,
          show parse_point3f (sp (onesTokens 1 ++ [']'])) = NR.error from rfl]
      · simp only [many1Sep, many1P,
          show parse_point3f (sp (onesTokens 2 ++ [']'])) = NR.error from rfl]
    simp only [param_set_item_values_point, hsp0, htag, nbind, hfail, wsTrail]
  · obtain ⟨m2, rfl⟩ : ∃ m2, n = m2 + 3 := ⟨n - 3, by omega⟩
    have hstep : parse_point3f (sp (onesTokens (m2 + 3) ++ [']']))
        = .done (onesTokens m2 ++ [']']) (Point3f.mk 1 1 1) := by
      rw [sp_of_headNot (onesTokens_headNot_ws (m2 + 3))]
      exact parse_point3f_ones m2
    obtain ⟨vs, hvs⟩ := manyLoop_ones m2 (by omega)
      ((onesTokens m2 ++ [']']).length + 1) [Point3f.mk 1 1 1]
      (by simp [List.length_append, onesTokens_length]; omega)
    have hmany : many1Sep parse_point3f (onesTokens (m2 + 3) ++ [']'])
        = .done (onesTokens (m2 % 3) ++ [']']) vs := by
      simp only [many1Sep, many1P, hstep]
      exact hvs
    have hmod2 : m2 % 3 = 1 ∨ m2 % 3 = 2 := by omega
    have htfail : tagP [']'] (sp (onesTokens (m2 % 3) ++ [']'])) = .error := by
      rcases hmod2 with hh | hh <;> rw [hh] <;> rfl
    have hm3 : (m2 + 3) % 3 = m2 % 3 := by omega
    simp only [param_set_item_values_point, hsp0, htag, nbind, hmany, htfail, wsTrail]

/-- C10 witness: the universal part of the arity theorem at four tokens. -/
theorem param_set_item_values_point_arity_witness :
    param_set_item_values_point ('[' :: (onesTokens 4 ++ [']'])) = .error :=
  param_set_item_values_point_arity.1 4 (by decide)

/-- C1 (counterexample): trailing unconsumed non-whitespace content after
`WorldEnd` does NOT yield an error — `parse_scene` returns the parsed
`Scene` and silently discards the rest (`IResult::Done(_, scene)`). -/
theorem parse_scene_accepts_trailing_garbage :
    parse_scene
      (chars "Integrator \"path\" WorldBegin Material \"mirror\" WorldEnd xyz")
      = .ok
          (Scene.mk [OptionsBlock.integrator (chars "path") []]
            [WorldBlock.material (chars "mirror") []]) :=
  rfl

/-- C2 (counterexample): on the unknown type tag `vector` the parameter
value recognizer does not return a recoverable error value — it hits the
`panic!` arm and aborts the process, carrying the offending tag. -/
theorem param_set_item_values_vector_panics :
    param_set_item_values (chars "vector") (chars "[1 2 3]")
      = .panicked (chars "vector") :=
  rfl

/-! ## Lemmas for the option-block order/multiplicity property (C3) -/

theorem sp_goodB {t : Input} (h : goodB t) : sp t = t := by
  cases t with
  | nil => rfl
  | cons c r => exact sp_cons_not _ h.1

theorem sp_space_goodB (t : Input) (h : goodB t) : sp (' ' :: t) = t := by
  cases t with
  | nil => rfl
  | cons c r => exact sp_space _ (show isWs c = false from h.1)

theorem param_set_item_goodB {c : Char} (r : Input) (hc : c ≠ '"') :
    param_set_item (c :: r) = .error := by
  simp only [param_set_item, tagP_cons_ne ([] : Input) r (Ne.symm hc), nbind]

theorem param_set_goodB (t : Input) (h : goodB t) : param_set t = .done t [] := by
  cases t with
  | nil => rfl
  | cons c r =>
    simp [param_set, many0P, manyLoop, param_set_item_goodB r (h.2 : c ≠ '"')]

theorem quoted_name_x (t : Input) :
    quoted_name ('"' :: 'x' :: '"' :: t) = .done t ['x'] := by
  simp only [quoted_name]
  rw [show tagP ['"'] ('"' :: 'x' :: '"' :: t) = .done ('x' :: '"' :: t) ['"'] from by
    simpa using tagP_append ['"'] ('x' :: '"' :: t)]
  simp only [nbind]
  rw [show alphanumeric ('x' :: '"' :: t) = .done ('"' :: t) ['x'] from by
    have h := charClass1_append ['x'] ('"' :: t) (by simp)
      (by intro c hc; rw [List.mem_singleton] at hc; subst hc; decide)
      (by decide : isAlphaNum '"' = false)
    simpa [alphanumeric] using h]
  simp only [nbind]
  rw [show tagP ['"'] ('"' :: t) = .done t ['"'] from by simpa using tagP_append ['"'] t]

theorem nameParamsDirective_render {α : Type} (kw : String) (mk : Input → ParamSet → α)
    (t : Input) (ht : goodB t)
    (hhead : ∀ r : Input, sp (chars kw ++ r) = chars kw ++ r) :
    nameParamsDirective kw mk (chars kw ++ (' ' :: '"' :: 'x' :: '"' :: ' ' :: t))
      = .done t (mk ['x'] []) := by
  simp only [nameParamsDirective]
  rw [hhead, tagP_append]
  simp only [nbind]
  rw [sp_space_cons '"' _ (by decide), quoted_name_x]
  simp only [nbind]
  rw [sp_space_goodB t ht, param_set_goodB t ht]
  simp only [nbind, wsTrail]
  rw [sp_goodB ht]

theorem nameParamsDirective_fail {α : Type} (kw : String) (mk : Input → ParamSet → α)
    {c d : Char} (kr i2 : Input) (hkw : chars kw = c :: kr) (hne : c ≠ d)
    (hd : isWs d = false) :
    nameParamsDirective kw mk (d :: i2) = .error := by
  simp only [nameParamsDirective]
  rw [sp_cons_not _ hd, hkw, tagP_cons_ne kr i2 hne]
  simp only [nbind, wsTrail]

theorem look_at_fail {d : Char} (i2 : Input) (hne : ('L' : Char) ≠ d)
    (hd : isWs d = false) :
    look_at (d :: i2) = .error := by
  simp only [look_at]
  rw [sp_cons_not _ hd, show chars "LookAt" = 'L' :: chars "ookAt" from rfl,
    tagP_cons_ne (chars "ookAt") i2 hne]
  simp only [nbind, wsTrail]

theorem zero_tok_step (r : Input) :
    number (sp (' ' :: '0' :: ' ' :: r)) = .done (' ' :: r) (0 : PFloat) := by
  rw [sp_space_cons '0' _ (by decide)]
  exact number_zero_tok r

theorem look_at_render (t : Input) (ht : goodB t) :
    look_at (renderTok .lookAt ++ t) = .done t (interpTok .lookAt) := by
  have hsp : sp (renderTok OptTok.lookAt ++ t) = renderTok OptTok.lookAt ++ t :=
    sp_cons_not _ (by decide)
  have htag : tagP (chars "LookAt") (renderTok OptTok.lookAt ++ t)
      = .done (' ' :: '0' :: ' ' :: '0' :: ' ' :: '0' :: ' ' :: '0' :: ' ' :: '0' ::
          ' ' :: '0' :: ' ' :: '0' :: ' ' :: '0' :: ' ' :: '0' :: ' ' :: t) (chars "LookAt") :=
    tagP_append (chars "LookAt")
      (' ' :: '0' :: ' ' :: '0' :: ' ' :: '0' :: ' ' :: '0' :: ' ' :: '0' ::
       ' ' :: '0' :: ' ' :: '0' :: ' ' :: '0' :: ' ' :: '0' :: ' ' :: t)
  simp only [look_at]
  rw [hsp, htag]
  simp only [nbind]
  rw [zero_tok_step]
  simp only [nbind]
  rw [zero_tok_step]
  simp only [nbind]
  rw [zero_tok_step]
  simp only [nbind]
  rw [zero_tok_step]
  simp only [nbind]
  rw [zero_tok_step]
  simp only [nbind]
  rw [zero_tok_step]
  simp only [nbind]
  rw [zero_tok_step]
  simp only [nbind]
  rw [zero_tok_step]
  simp only [nbind]
  rw [zero_tok_step]
  simp only [nbind, wsTrail]
  rw [sp_space_goodB t ht]
  rfl

theorem altO_render (d : OptTok) (t : Input) (ht : goodB t) :
    altP [film, look_at, camera, sampler, integrator] (renderTok d ++ t)
      = .done t (interpTok d) := by
  cases d with
  | film =>
    have h1 : film (renderTok OptTok.film ++ t) = .done t (interpTok OptTok.film) :=
      nameParamsDirective_render "Film" OptionsBlock.film t ht
        (fun r => sp_cons_not _ (by decide))
    simp only [altP, h1]
  | lookAt =>
    have h1 : film (renderTok OptTok.lookAt ++ t) = .error :=
      nameParamsDirective_fail "Film" OptionsBlock.film (chars "ilm") _ rfl
        (by decide) (by decide)
    have h2 : look_at (renderTok OptTok.lookAt ++ t) = .done t (interpTok OptTok.lookAt) :=
      look_at_render t ht
    simp only [altP, h1, h2]
  | camera =>
    have h1 : film (renderTok OptTok.camera ++ t) = .error :=
      nameParamsDirective_fail "Film" OptionsBlock.film (chars "ilm") _ rfl
        (by decide) (by decide)
    have h2 : look_at (renderTok OptTok.camera ++ t) = .error :=
      look_at_fail _ (by decide) (by decide)
    have h3 : camera (renderTok OptTok.camera ++ t) = .done t (interpTok OptTok.camera) :=
      nameParamsDirective_render "Camera" OptionsBlock.camera t ht
        (fun r => sp_cons_not _ (by decide))
    simp only [altP, h1, h2, h3]
  | sampler =>
    have h1 : film (renderTok OptTok.sampler ++ t) = .error :=
      nameParamsDirective_fail "Film" OptionsBlock.film (chars "ilm") _ rfl
        (by decide) (by decide)
    have h2 : look_at (renderTok OptTok.sampler ++ t) = .error :=
      look_at_fail _ (by decide) (by decide)
    have h3 : camera (renderTok OptTok.sampler ++ t) = .error :=
      nameParamsDirective_fail "Camera" OptionsBlock.camera (chars "amera") _ rfl
        (by decide) (by decide)
    have h4 : sampler (renderTok OptTok.sampler ++ t) = .done t (interpTok OptTok.sampler) :=
      nameParamsDirective_render "Sampler" OptionsBlock.sampler t ht
        (fun r => sp_cons_not _ (by decide))
    simp only [altP, h1, h2, h3, h4]
  | integrator =>
    have h1 : film (renderTok OptTok.integrator ++ t) = .error :=
      nameParamsDirective_fail "Film" OptionsBlock.film (chars "ilm") _ rfl
        (by decide) (by decide)
    have h2 : look_at (renderTok OptTok.integrator ++ t) = .error :=
      look_at_fail _ (by decide) (by decide)
    have h3 : camera (renderTok OptTok.integrator ++ t) = .error :=
      nameParamsDirective_fail "Camera" OptionsBlock.camera (chars "amera") _ rfl
        (by decide) (by decide)
    have h4 : sampler (renderTok OptTok.integrator ++ t) = .error :=
      nameParamsDirective_fail "Sampler" OptionsBlock.sampler (chars "ampler") _ rfl
        (by decide) (by decide)
    have h5 : integrator (renderTok OptTok.integrator ++ t)
        = .done t (interpTok OptTok.integrator) :=
      nameParamsDirective_render "Integrator" OptionsBlock.integrator t ht
        (fun r => sp_cons_not _ (by decide))
    simp only [altP, h1, h2, h3, h4, h5]

theorem renderToks_goodB (ds : List OptTok) : goodB (renderToks ds ++ chars "WorldBegin") := by
  cases ds with
  | nil => exact ⟨by decide, by decide⟩
  | cons d ds2 => cases d <;> exact ⟨by decide, by decide⟩

theorem renderTok_length_pos (d : OptTok) : (renderTok d).length ≠ 0 := by
  cases d <;> decide

theorem optLoop_render : ∀ (ds : List OptTok) (fuel : Nat) (acc : List OptionsBlock),
    (renderToks ds ++ chars "WorldBegin").length < fuel →
    manyLoop (altP [film, look_at, camera, sampler, integrator]) fuel
      (renderToks ds ++ chars "WorldBegin") acc
      = .done (chars "WorldBegin") (acc.reverse ++ ds.map interpTok) := by
  intro ds
  induction ds with
  | nil =>
    intro fuel acc hf
    match fuel with
    | 0 => omega
    | fuel + 1 =>
      simp [renderToks, manyLoop,
        show altP [film, look_at, camera, sampler, integrator] (chars "WorldBegin")
          = .error from rfl]
  | cons d ds2 ih =>
    intro fuel acc hf
    match fuel with
    | 0 => omega
    | fuel + 1 =>
      have hL := renderTok_length_pos d
      have hrt : renderToks (d :: ds2) = renderTok d ++ renderToks ds2 := by
        simp [renderToks]
      have hd := altO_render d (renderToks ds2 ++ chars "WorldBegin") (renderToks_goodB ds2)
      have hin : renderToks (d :: ds2) ++ chars "WorldBegin"
          = renderTok d ++ (renderToks ds2 ++ chars "WorldBegin") := by
        rw [hrt, List.append_assoc]
      rw [hin]
      have hne2 : renderTok d ++ (renderToks ds2 ++ chars "WorldBegin") ≠ [] := by
        cases d <;> exact List.cons_ne_nil _ _
      have hlen : ¬ ((renderToks ds2 ++ chars "WorldBegin").length
          = (renderTok d ++ (renderToks ds2 ++ chars "WorldBegin")).length) := by
        simp only [List.length_append]
        omega
      have hf2 : (renderToks ds2 ++ chars "WorldBegin").length < fuel := by
        rw [hin, List.length_append] at hf
        omega
      simp only [manyLoop]
      rw [if_neg hne2, hd]
      show (if (renderToks ds2 ++ chars "WorldBegin").length
            = (renderTok d ++ (renderToks ds2 ++ chars "WorldBegin")).length
          then NR.done (renderTok d ++ (renderToks ds2 ++ chars "WorldBegin")) acc.reverse
          else manyLoop (altP [film, look_at, camera, sampler, integrator]) fuel
            (renderToks ds2 ++ chars "WorldBegin") (interpTok d :: acc))
        = .done (chars "WorldBegin") (acc.reverse ++ (d :: ds2).map interpTok)
      rw [if_neg hlen, ih fuel (interpTok d :: acc) hf2]
      simp

/-- C3 (amended): the option-block recognizer accepts ONE or more of the
five option directives (Film, LookAt, Camera, Sampler, Integrator) in any
order and multiplicity, stopping at `WorldBegin` without consuming it; an
input containing no option directive before `WorldBegin` is rejected
(`many1!`, not zero-or-more). -/
theorem option_block_one_or_more :
    (∀ ds : List OptTok, ds ≠ [] →
      option_block (renderToks ds ++ chars "WorldBegin")
        = .done (chars "WorldBegin") (ds.map interpTok)) ∧
    option_block (chars "WorldBegin") = .error := by
  refine ⟨?_, rfl⟩
  intro ds hne
  cases ds with
  | nil => exact absurd rfl hne
  | cons d ds2 =>
    have hd := altO_render d (renderToks ds2 ++ chars "WorldBegin") (renderToks_goodB ds2)
    have hrt : renderToks (d :: ds2) ++ chars "WorldBegin"
        = renderTok d ++ (renderToks ds2 ++ chars "WorldBegin") := by
      simp [renderToks, List.append_assoc]
    simp only [option_block, many1P]
    rw [hrt, hd]
    show manyLoop (altP [film, look_at, camera, sampler, integrator])
        ((renderToks ds2 ++ chars "WorldBegin").length + 1)
        (renderToks ds2 ++ chars "WorldBegin") [interpTok d]
      = .done (chars "WorldBegin") ((d :: ds2).map interpTok)
    rw [optLoop_render ds2 _ [interpTok d] (by omega)]
    simp

/-- C3 witness: a repeated, out-of-order sequence of canonical directives
(Sampler, Film, Film) parses to the matching options in source order. -/
theorem option_block_one_or_more_witness :
    option_block (renderToks [OptTok.sampler, OptTok.film, OptTok.film] ++ chars "WorldBegin")
      = .done (chars "WorldBegin")
          ([OptTok.sampler, OptTok.film, OptTok.film].map interpTok) :=
  option_block_one_or_more.1 [OptTok.sampler, OptTok.film, OptTok.film] (by decide)

/-- C3 (counterexample): an input with no option directive before
`WorldBegin` is NOT accepted by the option-block recognizer with an empty
options sequence — `many1!` requires at least one directive and fails. -/
theorem option_block_rejects_empty :
    option_block (chars "WorldBegin") = .error :=
  rfl

/-- C4 (counterexample): the integer recognizer does not reject `1.5` — it
consumes the maximal digit prefix `1` and succeeds, leaving `.5`
unconsumed. -/
theorem integer_consumes_digit_prefix_of_one_point_five :
    integer (chars "1.5") = .done (chars ".5") 1 :=
  rfl

end Pbrt
